import Mathlib

/-!
Verification development for the SmartSpend expense tracker.

The definitions below are a shallow embedding of the client-side state
reconciliation and budget-evaluation logic of the application:
the App component's handlers (handleAddExpense, handleUpdateBudget,
handleDeleteBudget, handleClearData), the ChatInterface's handleSend
pipeline, and the Dashboard's derived values (filteredExpenses,
categoryData, totalSpent, totalBudget, currentBalance).

Modelling conventions:
  - JavaScript numbers are modelled as rationals (Rat); the claims under
    study are exact arithmetic identities, not floating-point facts.
  - Calendar dates are modelled structurally as year/month/day records
    (month 0-11 as returned by getMonth); wall-clock timestamps on chat
    messages are abstracted away, as no property mentions them.
  - The external collaborators (the natural-language parser and the
    persistence service) are modelled by their responses, passed in as
    Option-valued arguments: none models a failed parse or a failed save.
  - Locale-specific number rendering (toLocaleString) is abstracted by a
    plain rational rendering; no property inspects the rendered digits.
-/

namespace SmartSpend

/-- A calendar date, as the code reads it through getFullYear, getMonth
(0-11) and getDate. -/
structure Date where
  year : Int
  month : Nat
  day : Nat
deriving DecidableEq, Repr

/-- Expense record from types.ts. -/
structure Expense where
  id : String
  amount : Rat
  category : String
  description : String
  date : Date
deriving DecidableEq, Repr

/-- Budget record from types.ts. -/
structure Budget where
  category : String
  limit : Rat
deriving DecidableEq, Repr

/-- Chat message role from types.ts. -/
inductive Role where
  | user
  | assistant
deriving DecidableEq, Repr

/-- Chat message from types.ts; metadata carries the added expense and the
computed budgetLeft when present. The wall-clock timestamp field is
abstracted away. -/
structure ChatMessage where
  id : String
  role : Role
  text : String
  metadata : Option (Expense × Rat)
deriving DecidableEq, Repr

/-- Top-level application state from types.ts. -/
structure AppState where
  expenses : List Expense
  budgets : List Budget
  chatHistory : List ChatMessage
deriving DecidableEq, Repr

/-- The structured parser output, per the response schema in
geminiService.ts; amount is Option-valued so that none models a missing
or non-numeric amount field in the parsed result. -/
structure ParsedExpense where
  amount : Option Rat
  category : String
  description : String
  date : Date
deriving DecidableEq, Repr

/-- The argument of handleAddExpense: an Expense without id and date. -/
structure ExpenseData where
  amount : Rat
  category : String
  description : String
deriving DecidableEq, Repr

/-- DEFAULT_BUDGETS from constants.ts. -/
def DEFAULT_BUDGETS : List Budget :=
  [{ category := "Food", limit := 15000 },
   { category := "Transport", limit := 5000 },
   { category := "Bills", limit := 10000 },
   { category := "Shopping", limit := 8000 },
   { category := "Health", limit := 5000 },
   { category := "Entertainment", limit := 5000 },
   { category := "Other", limit := 5000 }]

/-- The save-failure reply of handleAddExpense in App.tsx. -/
def saveErrorText : String :=
  "I couldn\x27t save that expense. Please check your connection."

/-- The clarification reply of handleSend in ChatInterface when the parse
fails or the parsed amount is not a number. -/
def restatePrompt : String :=
  "I couldn\x27t catch that amount. Try saying \x27Spent ₹500 on lunch\x27."

/-- The seeded confirmation text of handleClearData in App.tsx. -/
def wipeText : String :=
  "All your data has been wiped. Let\x27s start fresh."

/-- Plain rendering of a rational, standing in for the locale-specific
toLocaleString rendering, which no claim inspects. -/
def ratDisplay (r : Rat) : String :=
  if r.den == 1 then toString r.num
  else toString r.num ++ "/" ++ toString r.den

/-- The success reply of handleSend in ChatInterface. -/
def confirmationText (e : Expense) (budgetLeft : Rat) : String :=
  "Got it! ₹" ++ ratDisplay e.amount ++ " for \"" ++ e.description ++
    "\" added to " ++ e.category ++ ". You have ₹" ++
    ratDisplay budgetLeft ++ " left there."

/-- Result of handleAddExpense in App.tsx: either an error message, or the
saved expense together with the computed remaining budget. -/
inductive AddExpenseResult where
  | error (msg : String)
  | ok (expense : Expense) (budgetLeft : Rat)
deriving DecidableEq, Repr

/-- handleAddExpense from App.tsx. The persistence call is modelled by the
savedExpense argument (none when apiService.saveExpense returned null),
and the wall clock by the today argument. The specificDate argument is
only forwarded to the persistence collaborator in the source, so it is
unused here. On a successful save the saved expense is appended to the
expense list, and budgetLeft is computed from the expense list as it was
before the append, with the budget limit looked up by exact category
equality and defaulting to 0 (the limit-or-0 fallback). -/
def handleAddExpense (st : AppState) (expenseData : ExpenseData)
    (specificDate : Option Date) (savedExpense : Option Expense)
    (today : Date) : AppState × AddExpenseResult :=
  match savedExpense with
  | none => (st, .error saveErrorText)
  | some saved =>
    let spentBefore :=
      (st.expenses.filter (fun e =>
          e.category == expenseData.category &&
          e.date.month == today.month && e.date.year == today.year)).foldl
        (fun sum e => sum + e.amount) 0
    let budgetLimit :=
      ((st.budgets.find? (fun b => b.category == expenseData.category)).map
        Budget.limit).getD 0
    let budgetLeft := budgetLimit - (spentBefore + expenseData.amount)
    ({ st with expenses := st.expenses ++ [saved] }, .ok saved budgetLeft)

/-- Reducing with the running-sum accumulator equals the accumulator plus
the sum of the mapped values. -/
theorem foldl_add_map {α : Type} (f : α → Rat) (l : List α) (a : Rat) :
    l.foldl (fun sum x => sum + f x) a = a + (l.map f).sum := by
  induction l generalizing a with
  | nil => simp
  | cons x xs ih => simp [List.foldl_cons, ih, add_assoc]

/-- C1: for every prior state and every parsed expense whose persistence
write succeeds, handleAddExpense appends the returned canonical expense to
the state and reports budgetLeft = categoryLimit minus
(priorSpendThisMonthInCategory + newAmount), where the prior spend is the
sum of the amounts of exactly the already-stored expenses whose category
equals the new expense's category and whose date falls in the current
calendar month and year, over the expense list as of immediately before
the append. -/
theorem handleAddExpense_success (st : AppState) (data : ExpenseData)
    (sd : Option Date) (e : Expense) (today : Date) :
    handleAddExpense st data sd (some e) today
      = ({ st with expenses := st.expenses ++ [e] },
         AddExpenseResult.ok e
           ((((st.budgets.find? (fun b => b.category == data.category)).map
                Budget.limit).getD 0)
             - (((st.expenses.filter (fun x =>
                    x.category == data.category &&
                    x.date.month == today.month &&
                    x.date.year == today.year)).map Expense.amount).sum
                + data.amount))) := by
  simp [handleAddExpense, foldl_add_map]

/-- C10: in the budgetLeft computation of handleAddExpense, the limit is
looked up by exact, case-sensitive equality between budget category and
expense category; when no budget category is exactly equal (including when
an entry differs only in letter case), the limit used is 0, so budgetLeft
is the negation of (prior spend this month in the category + new amount). -/
theorem handleAddExpense_noBudgetMatch (st : AppState) (data : ExpenseData)
    (sd : Option Date) (e : Expense) (today : Date)
    (h : ∀ b ∈ st.budgets, b.category ≠ data.category) :
    (handleAddExpense st data sd (some e) today).2
      = AddExpenseResult.ok e
          (-((((st.expenses.filter (fun x =>
                  x.category == data.category &&
                  x.date.month == today.month &&
                  x.date.year == today.year)).map Expense.amount).sum
              + data.amount))) := by
  have hf : st.budgets.find? (fun b => b.category == data.category) = none := by
    rw [List.find?_eq_none]
    intro b hb
    simpa using h b hb
  simp [handleAddExpense, hf, foldl_add_map, zero_sub]

/-- Concrete instance of handleAddExpense_noBudgetMatch: a budget entry
differing only in letter case from the expense category is not matched,
so budgetLeft is minus the new amount. -/
theorem handleAddExpense_noBudgetMatch_witness :
    (∀ b ∈ ([{ category := "food", limit := 100 }] : List Budget),
        b.category ≠ "Food") ∧
    (handleAddExpense
        { expenses := [], budgets := [{ category := "food", limit := 100 }],
          chatHistory := [] }
        { amount := 50, category := "Food", description := "x" }
        none
        (some { id := "1", amount := 50, category := "Food",
                description := "x", date := { year := 2026, month := 9, day := 11 } })
        { year := 2026, month := 9, day := 11 }).2
      = AddExpenseResult.ok
          { id := "1", amount := 50, category := "Food", description := "x",
            date := { year := 2026, month := 9, day := 11 } }
          (-((((([] : List Expense).filter (fun x =>
                  x.category == "Food" && x.date.month == 9 &&
                  x.date.year == (2026 : Int))).map Expense.amount).sum
              + 50))) :=
  ⟨by decide,
   handleAddExpense_noBudgetMatch
     { expenses := [], budgets := [{ category := "food", limit := 100 }],
       chatHistory := [] }
     { amount := 50, category := "Food", description := "x" }
     none
     { id := "1", amount := 50, category := "Food", description := "x",
       date := { year := 2026, month := 9, day := 11 } }
     { year := 2026, month := 9, day := 11 }
     (by decide)⟩

/-- Whitespace trimming at both ends, modelling the JavaScript
String.prototype.trim call on the chat input. -/
def trimString (s : String) : String :=
  String.mk ((s.data.dropWhile Char.isWhitespace).reverse.dropWhile
    Char.isWhitespace).reverse

/-- handleSend from ChatInterface.tsx. The parser response is modelled by
the parsed argument (none when parseExpenseMessage returned null) and the
persistence response by savedExpense, as in handleAddExpense. The uid and
aid arguments stand for the wall-clock-generated message ids. An empty
(all-whitespace) input returns without any change; otherwise the user
message is appended first, then: on a parsed result with a numeric amount
the expense is submitted and either the returned error text or a
confirmation message is appended; on a failed parse or a missing numeric
amount a single clarification message is appended. -/
def handleSend (st : AppState) (textToSend : String) (uid aid : String)
    (parsed : Option ParsedExpense) (savedExpense : Option Expense)
    (today : Date) : AppState :=
  if trimString textToSend = "" then st
  else
    let st1 := { st with chatHistory := st.chatHistory ++
      [{ id := uid, role := .user, text := textToSend, metadata := none }] }
    match parsed with
    | some p =>
      match p.amount with
      | some amt =>
        match handleAddExpense st1
            { amount := amt, category := p.category, description := p.description }
            (some p.date) savedExpense today with
        | (st2, .error msg) =>
          { st2 with chatHistory := st2.chatHistory ++
            [{ id := aid, role := .assistant, text := msg, metadata := none }] }
        | (st2, .ok e bl) =>
          { st2 with chatHistory := st2.chatHistory ++
            [{ id := aid, role := .assistant, text := confirmationText e bl,
               metadata := some (e, bl) }] }
      | none =>
        { st1 with chatHistory := st1.chatHistory ++
          [{ id := aid, role := .assistant, text := restatePrompt, metadata := none }] }
    | none =>
      { st1 with chatHistory := st1.chatHistory ++
        [{ id := aid, role := .assistant, text := restatePrompt, metadata := none }] }

/-- C2: for every chat input whose parse fails or whose parsed result
lacks a numeric amount, handleSend creates no expense and mutates no
budget, and the chat log gains exactly the user message followed by one
assistant message asking the user to restate the amount. -/
theorem handleSend_parseFailure (st : AppState) (text uid aid : String)
    (parsed : Option ParsedExpense) (saved : Option Expense) (today : Date)
    (ht : ¬ trimString text = "")
    (hp : parsed.bind ParsedExpense.amount = none) :
    (handleSend st text uid aid parsed saved today).expenses = st.expenses
    ∧ (handleSend st text uid aid parsed saved today).budgets = st.budgets
    ∧ (handleSend st text uid aid parsed saved today).chatHistory
        = st.chatHistory ++
          [{ id := uid, role := .user, text := text, metadata := none },
           { id := aid, role := .assistant, text := restatePrompt,
             metadata := none }] := by
  match parsed with
  | none => refine ⟨?_, ?_, ?_⟩ <;> simp [handleSend, ht]
  | some p =>
    have hpa : p.amount = none := by simpa using hp
    refine ⟨?_, ?_, ?_⟩ <;> simp [handleSend, ht, hpa]

/-- Concrete instance of handleSend_parseFailure: a failed parse of a
non-empty input leaves expenses and budgets alone and appends the user
message and one clarification reply. -/
theorem handleSend_parseFailure_witness :
    (¬ (trimString "hi" = "")) ∧
    ((handleSend { expenses := [], budgets := [], chatHistory := [] }
        "hi" "u1" "a1" none none { year := 2026, month := 9, day := 11 }).chatHistory
      = [{ id := "u1", role := .user, text := "hi", metadata := none },
         { id := "a1", role := .assistant, text := restatePrompt,
           metadata := none }]) :=
  ⟨by decide,
   (handleSend_parseFailure
     { expenses := [], budgets := [], chatHistory := [] }
     "hi" "u1" "a1" none none { year := 2026, month := 9, day := 11 }
     (by decide) rfl).2.2⟩

/-- C3: for every prior state and parsed expense whose persistence write
fails, handleSend reports the distinct save-error assistant message,
different from the parse-failure clarification, and leaves the expense
list and budgets unchanged. -/
theorem handleSend_saveFailure (st : AppState) (text uid aid : String)
    (p : ParsedExpense) (amt : Rat) (today : Date)
    (ht : ¬ trimString text = "") (hp : p.amount = some amt) :
    (handleSend st text uid aid (some p) none today).expenses = st.expenses
    ∧ (handleSend st text uid aid (some p) none today).budgets = st.budgets
    ∧ (handleSend st text uid aid (some p) none today).chatHistory
        = st.chatHistory ++
          [{ id := uid, role := .user, text := text, metadata := none },
           { id := aid, role := .assistant, text := saveErrorText,
             metadata := none }]
    ∧ saveErrorText ≠ restatePrompt := by
  refine ⟨?_, ?_, ?_, by decide⟩ <;>
    simp [handleSend, ht, hp, handleAddExpense]

/-- Concrete instance of handleSend_saveFailure: a failed save leaves the
state lists alone and appends the save-error reply. -/
theorem handleSend_saveFailure_witness :
    (¬ (trimString "tea 5" = "")) ∧
    ((⟨some 5, "Food", "tea", { year := 2026, month := 9, day := 11 }⟩ :
        ParsedExpense).amount = some 5) ∧
    ((handleSend { expenses := [], budgets := [], chatHistory := [] }
        "tea 5" "u1" "a1"
        (some ⟨some 5, "Food", "tea", { year := 2026, month := 9, day := 11 }⟩)
        none { year := 2026, month := 9, day := 11 }).chatHistory
      = [{ id := "u1", role := .user, text := "tea 5", metadata := none },
         { id := "a1", role := .assistant, text := saveErrorText,
           metadata := none }]) :=
  ⟨by decide, rfl,
   (handleSend_saveFailure
     { expenses := [], budgets := [], chatHistory := [] }
     "tea 5" "u1" "a1"
     ⟨some 5, "Food", "tea", { year := 2026, month := 9, day := 11 }⟩
     5 { year := 2026, month := 9, day := 11 }
     (by decide) rfl).2.2.1⟩

/-- Character-wise lowercasing, modelling the JavaScript toLowerCase call
used by the budget upsert's case-insensitive match. -/
def toLowerString (s : String) : String :=
  String.mk (s.data.map Char.toLower)

/-- Index of the first element satisfying the test, modelling the
JavaScript Array.prototype.findIndex call (none standing for -1). -/
def findIndex {α : Type} (p : α → Bool) : List α → Option Nat
  | [] => none
  | x :: xs => if p x then some 0 else (findIndex p xs).map (fun i => i + 1)

/-- Index-aware map, modelling the JavaScript Array.prototype.map call
with its second callback argument; k is the index of the first element. -/
def mapWithIndex {α : Type} (f : Nat → α → α) (k : Nat) : List α → List α
  | [] => []
  | x :: xs => f k x :: mapWithIndex f (k + 1) xs

/-- handleUpdateBudget from App.tsx: find the first budget whose category
matches case-insensitively; if found, replace only that entry's limit,
otherwise append a new entry. -/
def handleUpdateBudget (budgets : List Budget) (category : String)
    (limit : Rat) : List Budget :=
  match findIndex (fun b => toLowerString b.category == toLowerString category)
      budgets with
  | some i =>
    mapWithIndex
      (fun j b => if j == i then { category := b.category, limit := limit }
                  else b) 0 budgets
  | none => budgets ++ [{ category := category, limit := limit }]

/-- handleDeleteBudget from App.tsx: keep exactly the budgets whose
category is not exactly equal to the given key. -/
def handleDeleteBudget (budgets : List Budget) (category : String) :
    List Budget :=
  budgets.filter (fun b => b.category != category)

/-- handleClearData from App.tsx (the confirmed path): fresh state with no
expenses, the default budgets, and the single seeded wipe message. -/
def handleClearData (_st : AppState) : AppState :=
  { expenses := [],
    budgets := DEFAULT_BUDGETS,
    chatHistory := [{ id := "reset", role := .assistant, text := wipeText,
                      metadata := none }] }

/-- The documented budget invariant: category names are pairwise distinct
under case-insensitive comparison. -/
def CIDistinct (bs : List Budget) : Prop :=
  bs.Pairwise (fun a b =>
    toLowerString a.category ≠ toLowerString b.category)

instance (bs : List Budget) : Decidable (CIDistinct bs) := by
  unfold CIDistinct; infer_instance

/-- findIndex returns none exactly when no element satisfies the test. -/
theorem findIndex_eq_none_iff {α : Type} (p : α → Bool) (l : List α) :
    findIndex p l = none ↔ ∀ x ∈ l, p x = false := by
  induction l with
  | nil => simp [findIndex]
  | cons x xs ih =>
    by_cases hx : p x <;> simp [findIndex, hx, ih]

/-- findIndex finds the first satisfying element. -/
theorem findIndex_append_first {α : Type} (p : α → Bool) (l1 l2 : List α)
    (b : α) (h1 : ∀ x ∈ l1, p x = false) (hb : p b = true) :
    findIndex p (l1 ++ b :: l2) = some l1.length := by
  induction l1 with
  | nil => simp [findIndex, hb]
  | cons x xs ih =>
    have hx : p x = false := h1 x (by simp)
    have ihx := ih (fun y hy => h1 y (by simp [hy]))
    simp [findIndex, hx, ihx]

/-- mapWithIndex distributes over append, shifting the starting index. -/
theorem mapWithIndex_append {α : Type} (f : Nat → α → α) (k : Nat)
    (xs ys : List α) :
    mapWithIndex f k (xs ++ ys)
      = mapWithIndex f k xs ++ mapWithIndex f (k + xs.length) ys := by
  induction xs generalizing k with
  | nil => simp [mapWithIndex]
  | cons x xs ih =>
    simp [mapWithIndex, ih (k + 1), Nat.add_assoc, Nat.add_comm 1]

/-- Replacing at an index below the range leaves the list unchanged. -/
theorem mapWithIndex_if_below {α : Type} (g : α → α) (i k : Nat)
    (xs : List α) (h : k + xs.length ≤ i) :
    mapWithIndex (fun j b => if j == i then g b else b) k xs = xs := by
  induction xs generalizing k with
  | nil => rfl
  | cons x xs ih =>
    simp only [List.length_cons] at h
    have hk : (k == i) = false := by
      simp only [beq_eq_false_iff_ne, ne_eq]; omega
    simp only [mapWithIndex, hk, Bool.false_eq_true, if_false]
    rw [ih (k + 1) (by omega)]

/-- Replacing at an index above the range leaves the list unchanged. -/
theorem mapWithIndex_if_above {α : Type} (g : α → α) (i k : Nat)
    (xs : List α) (h : i < k) :
    mapWithIndex (fun j b => if j == i then g b else b) k xs = xs := by
  induction xs generalizing k with
  | nil => rfl
  | cons x xs ih =>
    have hk : (k == i) = false := by
      simp only [beq_eq_false_iff_ne, ne_eq]; omega
    simp only [mapWithIndex, hk, Bool.false_eq_true, if_false]
    rw [ih (k + 1) (by omega)]

/-- The upsert appends when no category matches case-insensitively. -/
theorem updateBudget_append_of_noMatch (bs : List Budget) (c : String)
    (lim : Rat)
    (h : ∀ x ∈ bs, toLowerString x.category ≠ toLowerString c) :
    handleUpdateBudget bs c lim = bs ++ [{ category := c, limit := lim }] := by
  have hf : findIndex
      (fun b => toLowerString b.category == toLowerString c) bs = none := by
    rw [findIndex_eq_none_iff]
    intro x hx
    simpa using h x hx
  simp [handleUpdateBudget, hf]

/-- The upsert replaces in place at the first case-insensitive match. -/
theorem updateBudget_replace_first (l1 l2 : List Budget) (b : Budget)
    (c : String) (lim : Rat)
    (hb : toLowerString b.category = toLowerString c)
    (h1 : ∀ x ∈ l1, toLowerString x.category ≠ toLowerString c) :
    handleUpdateBudget (l1 ++ b :: l2) c lim
      = l1 ++ { category := b.category, limit := lim } :: l2 := by
  have hf : findIndex
      (fun x => toLowerString x.category == toLowerString c)
      (l1 ++ b :: l2) = some l1.length := by
    apply findIndex_append_first
    · intro x hx; simpa using h1 x hx
    · simpa using hb
  simp only [handleUpdateBudget, hf]
  rw [mapWithIndex_append]
  rw [mapWithIndex_if_below _ _ _ _ (by omega)]
  simp only [mapWithIndex, Nat.zero_add, beq_self_eq_true, if_true]
  rw [mapWithIndex_if_above _ _ _ _ (by omega)]

/-- C6: budget upsert matches an existing entry by case-insensitive
category comparison; at the first such match the resulting list is the old
list with only that entry's limit replaced (stored category name and
position kept, length unchanged); when no entry matches, the new entry is
appended at the end. -/
theorem handleUpdateBudget_spec (l1 l2 : List Budget) (b : Budget)
    (c : String) (lim : Rat)
    (hb : toLowerString b.category = toLowerString c)
    (h1 : ∀ x ∈ l1, toLowerString x.category ≠ toLowerString c) :
    (handleUpdateBudget (l1 ++ b :: l2) c lim
        = l1 ++ { category := b.category, limit := lim } :: l2
      ∧ (handleUpdateBudget (l1 ++ b :: l2) c lim).length
          = (l1 ++ b :: l2).length)
    ∧ ∀ bs : List Budget,
        (∀ x ∈ bs, toLowerString x.category ≠ toLowerString c) →
        handleUpdateBudget bs c lim
          = bs ++ [{ category := c, limit := lim }] := by
  refine ⟨⟨updateBudget_replace_first l1 l2 b c lim hb h1, ?_⟩,
    fun bs h => updateBudget_append_of_noMatch bs c lim h⟩
  rw [updateBudget_replace_first l1 l2 b c lim hb h1]
  simp

/-- Concrete instance of handleUpdateBudget_spec: updating the limit for
food replaces the stored FOOD entry in place, keeping its name, position
and the list length. -/
theorem handleUpdateBudget_spec_witness :
    toLowerString "FOOD" = toLowerString "food" ∧
    (∀ x ∈ ([{ category := "Transport", limit := 5 }] : List Budget),
        toLowerString x.category ≠ toLowerString "food") ∧
    (handleUpdateBudget
        ([{ category := "Transport", limit := 5 }] ++
          { category := "FOOD", limit := 10 } ::
            [{ category := "Bills", limit := 7 }]) "food" 20
      = [{ category := "Transport", limit := 5 }] ++
          { category := "FOOD", limit := 20 } ::
            [{ category := "Bills", limit := 7 }]) :=
  ⟨by decide, by decide,
   ((handleUpdateBudget_spec
      [{ category := "Transport", limit := 5 }]
      [{ category := "Bills", limit := 7 }]
      { category := "FOOD", limit := 10 } "food" 20
      (by decide) (by decide)).1).1⟩

/-- C4: the full-wipe operation, applied to any prior state, yields the
empty expense list, the default budget set (Food 15000, Transport 5000,
Bills 10000, Shopping 8000, Health 5000, Entertainment 5000, Other 5000),
and a chat history of exactly one seeded assistant confirmation
message. -/
theorem handleClearData_spec (st : AppState) :
    handleClearData st
      = { expenses := [],
          budgets :=
            [{ category := "Food", limit := 15000 },
             { category := "Transport", limit := 5000 },
             { category := "Bills", limit := 10000 },
             { category := "Shopping", limit := 8000 },
             { category := "Health", limit := 5000 },
             { category := "Entertainment", limit := 5000 },
             { category := "Other", limit := 5000 }],
          chatHistory := [{ id := "reset", role := Role.assistant,
                            text := wipeText, metadata := none }] } := rfl

/-- C7: on a budget list satisfying the case-insensitive uniqueness
invariant, deleting by a category key that exactly matches one entry
removes exactly that entry and leaves every other entry unchanged, and
re-adding a budget with the same category name afterwards appends a fresh
entry with the given limit and no residue of the deleted entry. -/
theorem handleDeleteBudget_spec (l1 l2 : List Budget) (b : Budget)
    (lim : Rat) (hdist : CIDistinct (l1 ++ b :: l2)) :
    handleDeleteBudget (l1 ++ b :: l2) b.category = l1 ++ l2
    ∧ handleUpdateBudget (l1 ++ l2) b.category lim
        = (l1 ++ l2) ++ [{ category := b.category, limit := lim }] := by
  rw [CIDistinct, List.pairwise_append] at hdist
  obtain ⟨-, hbl2, h1⟩ := hdist
  have hl1 : ∀ x ∈ l1, toLowerString x.category ≠ toLowerString b.category :=
    fun x hx => h1 x hx b (by simp)
  have hl2 : ∀ x ∈ l2, toLowerString x.category ≠ toLowerString b.category :=
    fun x hx => (List.rel_of_pairwise_cons hbl2 hx).symm
  have hne : ∀ x ∈ l1 ++ l2, x.category ≠ b.category := by
    intro x hx heq
    rcases List.mem_append.mp hx with h | h
    · exact hl1 x h (by rw [heq])
    · exact hl2 x h (by rw [heq])
  constructor
  · unfold handleDeleteBudget
    rw [List.filter_append, List.filter_cons]
    have hb : (b.category != b.category) = false := by simp
    simp only [hb, Bool.false_eq_true, if_false]
    rw [List.filter_eq_self.mpr, List.filter_eq_self.mpr]
    · intro a ha; simpa using hne a (List.mem_append.mpr (Or.inr ha))
    · intro a ha; simpa using hne a (List.mem_append.mpr (Or.inl ha))
  · exact updateBudget_append_of_noMatch (l1 ++ l2) b.category lim
      (fun x hx => match List.mem_append.mp hx with
        | Or.inl h => hl1 x h
        | Or.inr h => hl2 x h)

/-- Concrete instance of handleDeleteBudget_spec: deleting Transport
removes only that entry, and re-adding it appends a fresh entry. -/
theorem handleDeleteBudget_spec_witness :
    CIDistinct
      ([{ category := "Food", limit := 1 }] ++
        { category := "Transport", limit := 2 } ::
          [{ category := "Bills", limit := 3 }]) ∧
    (handleDeleteBudget
        ([{ category := "Food", limit := 1 }] ++
          { category := "Transport", limit := 2 } ::
            [{ category := "Bills", limit := 3 }]) "Transport"
      = [{ category := "Food", limit := 1 }] ++
          [{ category := "Bills", limit := 3 }]) ∧
    (handleUpdateBudget
        ([{ category := "Food", limit := 1 }] ++
          [{ category := "Bills", limit := 3 }]) "Transport" 9
      = ([{ category := "Food", limit := 1 }] ++
          [{ category := "Bills", limit := 3 }]) ++
          [{ category := "Transport", limit := 9 }]) :=
  ⟨by decide,
   (handleDeleteBudget_spec
     [{ category := "Food", limit := 1 }]
     [{ category := "Bills", limit := 3 }]
     { category := "Transport", limit := 2 } 9 (by decide)).1,
   (handleDeleteBudget_spec
     [{ category := "Food", limit := 1 }]
     [{ category := "Bills", limit := 3 }]
     { category := "Transport", limit := 2 } 9 (by decide)).2⟩

/-- The categories (lowercased) are unchanged by the in-place limit
replacement performed by the upsert's found branch. -/
theorem mapWithIndex_catLower (i k : Nat) (lim : Rat) (bs : List Budget) :
    (mapWithIndex
        (fun j b => if j == i then { category := b.category, limit := lim }
                    else b) k bs).map
      (fun b => toLowerString b.category)
      = bs.map (fun b => toLowerString b.category) := by
  induction bs generalizing k with
  | nil => rfl
  | cons x xs ih =>
    simp only [mapWithIndex, List.map_cons, ih (k + 1)]
    by_cases hk : (k == i) = true <;> simp [hk]

/-- C9: starting from any budget list whose categories are pairwise
distinct case-insensitively, each budget operation (upsert, delete by
exact key, and full wipe to the default set) yields a list whose
categories are still pairwise distinct case-insensitively. -/
theorem budgetOps_preserve_CIDistinct (st : AppState) (bs : List Budget)
    (c : String) (lim : Rat) (h : CIDistinct bs) :
    CIDistinct (handleUpdateBudget bs c lim)
    ∧ CIDistinct (handleDeleteBudget bs c)
    ∧ CIDistinct (handleClearData st).budgets := by
  refine ⟨?_, ?_, ?_⟩
  case refine_3 =>
    show CIDistinct DEFAULT_BUDGETS
    decide
  · cases hf : findIndex
        (fun b => toLowerString b.category == toLowerString c) bs with
    | none =>
      have hnone := (findIndex_eq_none_iff _ _).mp hf
      have : handleUpdateBudget bs c lim
          = bs ++ [{ category := c, limit := lim }] := by
        simp [handleUpdateBudget, hf]
      rw [this, CIDistinct, List.pairwise_append]
      refine ⟨h, List.pairwise_singleton _ _, ?_⟩
      intro a ha b hb
      have := hnone a ha
      simp only [List.mem_singleton] at hb
      subst hb
      simpa using this
    | some i =>
      have hres : handleUpdateBudget bs c lim
          = mapWithIndex
              (fun j b => if j == i then { category := b.category, limit := lim }
                          else b) 0 bs := by
        simp [handleUpdateBudget, hf]
      rw [CIDistinct, ← List.pairwise_map (f := fun b : Budget =>
        toLowerString b.category)] at h ⊢
      rw [hres, mapWithIndex_catLower]
      exact h
  · exact List.Pairwise.sublist (List.filter_sublist bs) h

/-- Concrete instance of budgetOps_preserve_CIDistinct on a distinct
two-entry budget list. -/
theorem budgetOps_preserve_CIDistinct_witness :
    CIDistinct [{ category := "Food", limit := 1 },
                { category := "Bills", limit := 2 }] ∧
    CIDistinct (handleUpdateBudget
      [{ category := "Food", limit := 1 },
       { category := "Bills", limit := 2 }] "food" 7) :=
  ⟨by decide,
   (budgetOps_preserve_CIDistinct
     { expenses := [], budgets := [], chatHistory := [] }
     [{ category := "Food", limit := 1 },
      { category := "Bills", limit := 2 }] "food" 7 (by decide)).1⟩

/-- Day-granularity date comparison, modelling the JavaScript Date
comparisons of the range filter (the end bound being pushed to the last
instant of its day makes both bounds day-inclusive). -/
def dateLe (a b : Date) : Bool :=
  if a.year = b.year then
    (if a.month = b.month then decide (a.day ≤ b.day)
     else decide (a.month < b.month))
  else decide (a.year < b.year)

/-- filteredExpenses from Dashboard.tsx: with no explicit range, the
expenses of the current calendar month; otherwise the expenses whose date
lies in the inclusive range, the start defaulting to the epoch
(1970-01-01) and the end to today. -/
def filteredExpenses (expenses : List Expense) (today : Date)
    (startDate endDate : Option Date) : List Expense :=
  match startDate, endDate with
  | none, none =>
    expenses.filter (fun e =>
      e.date.month == today.month && e.date.year == today.year)
  | _, _ =>
    let s := startDate.getD { year := 1970, month := 0, day := 1 }
    let en := endDate.getD today
    expenses.filter (fun e => dateLe s e.date && dateLe e.date en)

/-- totalSpent from Dashboard.tsx: the reduce over the filtered list. -/
def totalSpent (fe : List Expense) : Rat :=
  fe.foldl (fun sum e => sum + e.amount) 0

/-- totalBudget from Dashboard.tsx: the reduce over the budget limits. -/
def totalBudget (budgets : List Budget) : Rat :=
  budgets.foldl (fun sum b => sum + b.limit) 0

/-- currentBalance from Dashboard.tsx. -/
def currentBalance (budgets : List Budget) (fe : List Expense) : Rat :=
  totalBudget budgets - totalSpent fe

/-- The remaining figure actually shown in the hero card JSX:
Math.max(0, currentBalance). -/
def displayedRemaining (budgets : List Budget) (fe : List Expense) : Rat :=
  max 0 (currentBalance budgets fe)

/-- The over-budget test used for the red styling in the hero card JSX:
currentBalance less than 0. -/
def overBudgetIndicator (budgets : List Budget) (fe : List Expense) : Bool :=
  decide (currentBalance budgets fe < 0)

/-- C8: the remaining balance equals exactly the total limit minus the
total spend and is negative whenever the spend exceeds the limit; the
displayed figure clamps the negative value to zero while the signed value
is what drives over-budget detection. -/
theorem currentBalance_spec (budgets : List Budget) (fe : List Expense) :
    currentBalance budgets fe
        = (budgets.map Budget.limit).sum - (fe.map Expense.amount).sum
    ∧ ((budgets.map Budget.limit).sum < (fe.map Expense.amount).sum →
        currentBalance budgets fe < 0)
    ∧ displayedRemaining budgets fe
        = max 0 ((budgets.map Budget.limit).sum - (fe.map Expense.amount).sum)
    ∧ (overBudgetIndicator budgets fe = true ↔
        currentBalance budgets fe < 0) := by
  have hb : currentBalance budgets fe
      = (budgets.map Budget.limit).sum - (fe.map Expense.amount).sum := by
    simp [currentBalance, totalBudget, totalSpent, foldl_add_map]
  refine ⟨hb, ?_, ?_, ?_⟩
  · intro hlt
    rw [hb]
    exact sub_neg.mpr hlt
  · rw [displayedRemaining, hb]
  · simp [overBudgetIndicator]

/-- Concrete instance of currentBalance_spec: spending 15 against a total
cap of 10 drives the signed balance negative. -/
theorem currentBalance_spec_witness :
    (((([{ category := "Food", limit := 10 }] : List Budget).map
        Budget.limit).sum : Rat)
      < ((([{ id := "1", amount := 15, category := "Food",
              description := "x",
              date := { year := 2026, month := 9, day := 1 } }] :
            List Expense).map Expense.amount).sum : Rat)) ∧
    currentBalance [{ category := "Food", limit := 10 }]
      [{ id := "1", amount := 15, category := "Food", description := "x",
         date := { year := 2026, month := 9, day := 1 } }] < 0 :=
  ⟨by simp; decide,
   (currentBalance_spec [{ category := "Food", limit := 10 }]
     [{ id := "1", amount := 15, category := "Food", description := "x",
        date := { year := 2026, month := 9, day := 1 } }]).2.1
     (by simp; decide)⟩

/-- First-occurrence deduplication, modelling the construction
Array.from(new Set(...)) over the concatenated category arrays (a
JavaScript Set keeps insertion order and the first occurrence). -/
def setFromList : List String → List String
  | [] => []
  | x :: xs => x :: (setFromList xs).filter (fun y => y != x)

/-- The per-category spend of categoryData in Dashboard.tsx: the reduce
over the filtered expenses of one category. -/
def spentIn (fe : List Expense) (cat : String) : Rat :=
  (fe.filter (fun e => e.category == cat)).foldl (fun sum e => sum + e.amount) 0

/-- The property-level formulation of the per-category spend: the sum of
the amounts of exactly the expenses of that category. Stated from the
spec's words, to be compared with the reduce-based spentIn. -/
def spentSum (fe : List Expense) (cat : String) : Rat :=
  ((fe.filter (fun e => e.category == cat)).map Expense.amount).sum

/-- categoryData from Dashboard.tsx: one pair per category drawn from the
budgets and the filtered expenses (first occurrences, deduplicated), with
its spend over the filtered expenses, keeping only positive spends. -/
def categoryData (expenses : List Expense) (budgets : List Budget)
    (today : Date) (startDate endDate : Option Date) : List (String × Rat) :=
  let fe := filteredExpenses expenses today startDate endDate
  let categories := setFromList
    (budgets.map Budget.category ++ fe.map Expense.category)
  (categories.map (fun cat => (cat, spentIn fe cat))).filter
    (fun d => decide (0 < d.2))

/-- The reduce-based spend agrees with the sum-of-amounts formulation. -/
theorem spentIn_eq_spentSum (fe : List Expense) (cat : String) :
    spentIn fe cat = spentSum fe cat := by
  simp [spentIn, spentSum, foldl_add_map]

/-- Membership in the deduplicated list is membership in the original. -/
theorem mem_setFromList (x : String) (l : List String) :
    x ∈ setFromList l ↔ x ∈ l := by
  induction l with
  | nil => simp [setFromList]
  | cons y ys ih =>
    by_cases hxy : x = y
    · subst hxy; simp [setFromList]
    · simp [setFromList, List.mem_filter, ih, hxy, bne_iff_ne]

/-- The deduplicated list has no duplicates. -/
theorem setFromList_nodup (l : List String) : (setFromList l).Nodup := by
  induction l with
  | nil => simp [setFromList]
  | cons y ys ih =>
    rw [setFromList, List.nodup_cons]
    refine ⟨?_, List.Nodup.filter _ ih⟩
    intro hy
    simpa using (List.mem_filter.mp hy).2

/-- Projecting the names out of the positive-spend filter is the same as
filtering the names by positive spend. -/
theorem map_fst_filter_snd_pos (cats : List String) (s : String → Rat) :
    (((cats.map (fun c => (c, s c))).filter
        (fun d => decide (0 < d.2))).map Prod.fst)
      = cats.filter (fun c => decide (0 < s c)) := by
  induction cats with
  | nil => rfl
  | cons c cs ih =>
    by_cases h : (0 : Rat) < s c <;> simp [h, ih]

/-- Every filtered expense comes from the original list. -/
theorem mem_of_mem_filteredExpenses (expenses : List Expense) (today : Date)
    (sd ed : Option Date) (e : Expense)
    (he : e ∈ filteredExpenses expenses today sd ed) : e ∈ expenses := by
  cases sd <;> cases ed <;>
    exact (List.mem_filter.mp he).1

/-- The spend of any category over expenses with non-negative amounts is
non-negative. -/
theorem spentSum_nonneg (fe : List Expense) (cat : String)
    (h : ∀ e ∈ fe, 0 ≤ e.amount) : 0 ≤ spentSum fe cat := by
  apply List.sum_nonneg
  intro x hx
  obtain ⟨e, he, rfl⟩ := List.mem_map.mp hx
  exact h e (List.mem_filter.mp he).1

/-- C5: categoryData returns one entry per category in the union of the
budget categories and the filtered expenses' categories with nonzero
summed spend, each entry's spent being the sum of the matching expenses'
amounts over the range (the current calendar month when no range is
given); with an empty budget list the entries are exactly the distinct
expense categories with their summed spend. -/
theorem categoryData_spec (expenses : List Expense) (budgets : List Budget)
    (today : Date) (sd ed : Option Date)
    (hpos : ∀ e ∈ expenses, 0 ≤ e.amount) :
    ((categoryData expenses budgets today sd ed).map Prod.fst
        = (setFromList (budgets.map Budget.category ++
            (filteredExpenses expenses today sd ed).map
              Expense.category)).filter
            (fun c => decide
              (spentSum (filteredExpenses expenses today sd ed) c ≠ 0)))
    ∧ (∀ c : String,
        c ∈ (categoryData expenses budgets today sd ed).map Prod.fst
          ↔ (c ∈ budgets.map Budget.category
              ∨ c ∈ (filteredExpenses expenses today sd ed).map
                  Expense.category)
            ∧ spentSum (filteredExpenses expenses today sd ed) c ≠ 0)
    ∧ (∀ p ∈ categoryData expenses budgets today sd ed,
        p.2 = spentSum (filteredExpenses expenses today sd ed) p.1)
    ∧ ((categoryData expenses budgets today sd ed).map Prod.fst).Nodup
    ∧ (filteredExpenses expenses today none none
        = expenses.filter (fun e =>
            e.date.month == today.month && e.date.year == today.year))
    ∧ (budgets = [] →
        (categoryData expenses budgets today sd ed).map Prod.fst
          = (setFromList ((filteredExpenses expenses today sd ed).map
              Expense.category)).filter
              (fun c => decide
                (spentSum (filteredExpenses expenses today sd ed) c ≠ 0))) := by
  set fe := filteredExpenses expenses today sd ed with hfe
  have hfees : ∀ e ∈ fe, 0 ≤ e.amount := fun e he =>
    hpos e (mem_of_mem_filteredExpenses expenses today sd ed e he)
  have hdec : ∀ c ∈ setFromList (budgets.map Budget.category ++
      fe.map Expense.category),
      (decide (0 < spentIn fe c)) = (decide (spentSum fe c ≠ 0)) := by
    intro c _
    rw [spentIn_eq_spentSum]
    apply decide_eq_decide.mpr
    constructor
    · exact fun h => (ne_of_gt h)
    · exact fun h => lt_of_le_of_ne (spentSum_nonneg fe c hfees) (Ne.symm h)
  have hmain : (categoryData expenses budgets today sd ed).map Prod.fst
      = (setFromList (budgets.map Budget.category ++
          fe.map Expense.category)).filter
          (fun c => decide (spentSum fe c ≠ 0)) := by
    rw [categoryData]
    rw [map_fst_filter_snd_pos]
    exact List.filter_congr hdec
  refine ⟨hmain, ?_, ?_, ?_, rfl, ?_⟩
  · intro c
    rw [hmain, List.mem_filter, mem_setFromList, List.mem_append,
      decide_eq_true_iff]
  · intro p hp
    have hp' := (List.mem_filter.mp hp).1
    obtain ⟨c, _, rfl⟩ := List.mem_map.mp hp'
    exact spentIn_eq_spentSum fe c
  · rw [hmain]
    exact List.Nodup.filter _ (setFromList_nodup _)
  · intro hb
    rw [hmain, hb]
    simp

/-- Concrete instance of categoryData_spec: one expense, empty budgets,
no explicit range. -/
theorem categoryData_spec_witness :
    (∀ e ∈ ([{ id := "1", amount := 5, category := "Food",
               description := "x",
               date := { year := 2026, month := 9, day := 10 } }] :
        List Expense), 0 ≤ e.amount) ∧
    ((categoryData
        [{ id := "1", amount := 5, category := "Food", description := "x",
           date := { year := 2026, month := 9, day := 10 } }]
        [] { year := 2026, month := 9, day := 11 } none none).map
      Prod.fst).Nodup :=
  ⟨by decide,
   (categoryData_spec
     [{ id := "1", amount := 5, category := "Food", description := "x",
        date := { year := 2026, month := 9, day := 10 } }]
     [] { year := 2026, month := 9, day := 11 } none none
     (by decide)).2.2.2.1⟩

end SmartSpend

